import Mathlib

/-!
# bid-spot: the MarketAuctionJob reconciler

A shallow embedding of `market-controller/market-auction-controller.go` and
theorems about `MarketAuctionJobReconciler.Reconcile`.

Modelling conventions.

* A Go `map[string]Bid` is an association list with pairwise distinct keys.
  The order in which `range` visits a map is not fixed by the language, so the
  visiting order is an explicit input of `Reconcile` (`World.order`), a
  permutation of the entries of the fetched `Spec.Bids`.
* `float64` prices are rationals. Custom resources reach the controller as
  JSON, which carries neither NaN nor infinities, and every finite `float64`
  is a rational number on which `<` and `==` agree with the IEEE comparison.
  Negative zero is not told from zero; the two compare equal in Go as well and
  differ only in the sign that `%.2f` prints in the status message.
* `int32` fields are integers; the reconciler only copies and prints them.
* `time.Time` is a number of nanoseconds counted from Go's zero time, and
  `time.Now()` is a stream of readings supplied by the environment.
* The collaborators of the reconciler (`r.Get`, `r.Status().Update`,
  `r.Record.Event`, `r.Log`) are an explicit environment going in and lists of
  recorded calls coming out. The library check `errors.IsNotFound` is part of
  that environment (`World.isNotFound`); the concrete runs below use
  `IsNotFound`, which follows apimachinery.
-/

namespace BidSpot

/-! ## API types -/

/-- Go's `time.Time`: nanoseconds since the zero time. -/
abbrev Time := Int

/-- The Go constant `time.Minute`, in nanoseconds. -/
def Minute : Int := 60 * 1000000000

/-- ResourceRequirements specifies the GPU and other resource needs. -/
structure ResourceRequirements where
  GPUs : Int := 0
  MemoryGiB : Int := 0
deriving DecidableEq

/-- JobRequest defines the details of the job to be run. -/
structure JobRequest where
  Name : String := ""
  ResourceRequirements : ResourceRequirements := {}
deriving DecidableEq

/-- Bid represents a single bid from a cluster. -/
structure Bid where
  Price : ℚ := 0
  MaxTimeUntilStart : String := ""
deriving DecidableEq

/-- Constraints imposes limitations on the job. -/
structure Constraints where
  MaximumRuntime : String := ""
  IsPreemptible : Bool := false
deriving DecidableEq

/-- MarketAuctionJobSpec: the input of the auction. `Bids` is keyed by cluster id. -/
structure MarketAuctionJobSpec where
  JobRequest : JobRequest := {}
  Bids : List (String × Bid) := []
  Constraints : Constraints := {}
deriving DecidableEq

/-- MarketAuctionJobStatus: the output of the auction. -/
structure MarketAuctionJobStatus where
  ScheduledCluster : String := ""
  AllocatedGPUs : Int := 0
  ClearingPrice : ℚ := 0
  StartTime : Time := 0
  State : String := ""
  Message : String := ""
deriving DecidableEq

/-- MarketAuctionJob: the custom resource (of the object metadata, name and namespace). -/
structure MarketAuctionJob where
  Name : String := ""
  Namespace : String := ""
  Spec : MarketAuctionJobSpec := {}
  Status : MarketAuctionJobStatus := {}
deriving DecidableEq

/-! ## Go maps -/

/-- The keys of a map. -/
def keys (m : List (String × Bid)) : List String := m.map Prod.fst

/-- Go's map index expression `m[k]`: the stored value, or the zero value when
`k` is not a key. -/
def index (m : List (String × Bid)) (k : String) : Bid :=
  match m.lookup k with
  | some b => b
  | none => {}

/-! ## Collaborators -/

/-- An error value, with what apimachinery's `reasonAndCodeForError` reads from it: the
status reason and the HTTP status code of an API status error, the empty reason and
code 0 of any other error. -/
structure Error where
  reason : String
  code : Int
  message : String
deriving DecidableEq

/-- The status reasons in apimachinery's table `knownReasons`. -/
def knownReasons : List String :=
  ["Unauthorized", "Forbidden", "NotFound", "AlreadyExists", "Conflict", "Gone", "Invalid",
   "ServerTimeout", "Timeout", "TooManyRequests", "BadRequest", "MethodNotAllowed",
   "NotAcceptable", "RequestEntityTooLarge", "UnsupportedMediaType", "InternalError",
   "Expired", "ServiceUnavailable"]

/-- The check `errors.IsNotFound` of apimachinery: the reason is `NotFound`, or the reason
is none of the known ones and the HTTP status code is 404. -/
def IsNotFound (e : Error) : Bool :=
  e.reason == "NotFound" || (!knownReasons.contains e.reason && e.code == 404)

/-- Go's `ctrl.Result`. -/
structure Result where
  Requeue : Bool := false
  RequeueAfter : Int := 0
deriving DecidableEq

/-- One call of `r.Record.Event(object, eventtype, reason, message)`. -/
structure Event where
  object : MarketAuctionJob
  eventtype : String
  reason : String
  message : String
deriving DecidableEq

/-- One call of `r.Log.Info(msg, keysAndValues...)` or `r.Log.Error(err, msg)`. -/
inductive LogEntry where
  | info (msg : String) (keysAndValues : List (String × String))
  | error (err : Error) (msg : String)
deriving DecidableEq

/-- What `r.Get` does: it fills the object in, or fails. -/
inductive GetResult where
  | ok (job : MarketAuctionJob)
  | fail (err : Error)
deriving DecidableEq

/-- The environment of one run of `Reconcile`. -/
structure World where
  /-- The outcome of `r.Get(ctx, req.NamespacedName, marketAuctionJob)`. -/
  get : GetResult
  /-- The library check `errors.IsNotFound` that the reconciler is linked with. -/
  isNotFound : Error → Bool
  /-- The order in which `range marketAuctionJob.Spec.Bids` visits the entries. -/
  order : List (String × Bid)
  /-- The successive readings of `time.Now()`. -/
  now : Nat → Time
  /-- The outcome of `r.Status().Update(ctx, marketAuctionJob)`: `none` is a nil error.
  The call is taken to leave the object it is given as it is. -/
  statusUpdate : MarketAuctionJob → Option Error

/-- What one run of `Reconcile` returns and does. -/
structure Outcome where
  /-- The returned `ctrl.Result`. -/
  result : Result
  /-- The returned error, `none` for nil. -/
  err : Option Error
  /-- The object `marketAuctionJob` as it stands when `Reconcile` returns. -/
  obj : MarketAuctionJob
  /-- The objects passed to `r.Status().Update`, in call order. -/
  updates : List MarketAuctionJob
  /-- The calls of `r.Record.Event`, in call order. -/
  events : List Event
  /-- The calls of `r.Log`, in call order. -/
  logs : List LogEntry
deriving DecidableEq

/-! ## Formatting -/

/-- Two decimal digits of a number below one hundred. -/
def twoDigits (n : Nat) : String :=
  if n < 10 then "0" ++ toString n else toString n

/-- The verb `%.2f` of `fmt.Sprintf`: two digits after the point, the exact
value rounded to nearest, ties to even, a minus sign before a negative value.
(Go also prints the sign of a negative zero, which a rational does not tell
from zero.) -/
def formatPrice (q : ℚ) : String :=
  let a : ℚ := |q| * 100
  let fl : Nat := a.floor.toNat
  let frac : ℚ := a - fl
  let r : Nat :=
    if frac < 1 / 2 then fl
    else if 1 / 2 < frac then fl + 1
    else if fl % 2 = 0 then fl else fl + 1
  (if q < 0 then "-" else "") ++ toString (r / 100) ++ "." ++ twoDigits (r % 100)

/-- The call `fmt.Sprintf("Job scheduled on cluster %s with %d GPUs for $%.2f", ...)`. -/
def scheduledMessage (cluster : String) (gpus : Int) (price : ℚ) : String :=
  "Job scheduled on cluster " ++ cluster ++ " with " ++ toString gpus ++ " GPUs for $"
    ++ formatPrice price

/-! ## The auction loop -/

/-- The local variables of `Reconcile` that the loop over the bids assigns,
and the number of clock readings taken so far. -/
structure LoopState where
  bestCluster : String := ""
  lowestPrice : ℚ := 0
  scheduledStartTime : Time := 0
  foundCandidate : Bool := false
  clockReads : Nat := 0
deriving DecidableEq

/-- One iteration of `for cluster, bid := range marketAuctionJob.Spec.Bids`. -/
def rangeStep (now : Nat → Time) (s : LoopState) (e : String × Bid) : LoopState :=
  if s.foundCandidate = false ∨ e.2.Price < s.lowestPrice then
    { lowestPrice := e.2.Price
      bestCluster := e.1
      scheduledStartTime := now s.clockReads + 5 * Minute
      foundCandidate := true
      clockReads := s.clockReads + 1 }
  else s

/-- The whole loop, visiting the entries in the given order. -/
def rangeBids (now : Nat → Time) (order : List (String × Bid)) : LoopState :=
  order.foldl (rangeStep now) {}

/-! ## Reconcile -/

/-- Step 3 of `Reconcile`: the status written from the loop's result. -/
def applyAuction (job : MarketAuctionJob) (s : LoopState) : MarketAuctionJob :=
  if s.foundCandidate = true then
    let gpus := job.Spec.JobRequest.ResourceRequirements.GPUs
    { job with
      Status :=
        { job.Status with
          State := "Scheduled"
          ScheduledCluster := s.bestCluster
          AllocatedGPUs := gpus
          ClearingPrice := s.lowestPrice
          StartTime := s.scheduledStartTime
          Message := scheduledMessage s.bestCluster gpus s.lowestPrice } }
  else
    { job with
      Status :=
        { job.Status with
          State := "Failed"
          Message := "Could not find a suitable cluster based on the provided bids." } }

/-- The method `MarketAuctionJobReconciler.Reconcile`. -/
def Reconcile (w : World) : Outcome :=
  match w.get with
  | .fail err =>
    if w.isNotFound err = true then
      { result := {}, err := none, obj := {}, updates := [], events := [], logs := [] }
    else
      { result := {}, err := some err, obj := {}, updates := [], events := [], logs := [] }
  | .ok job =>
    if job.Status.State = "Scheduled" ∨ job.Status.State = "Failed" then
      { result := {}, err := none, obj := job, updates := [], events := []
        logs := [.info "Job already processed"
          [("job_name", job.Name), ("state", job.Status.State)]] }
    else
      let s := rangeBids w.now w.order
      let job' := applyAuction job s
      let events : List Event :=
        if s.foundCandidate = true then []
        else [{ object := job', eventtype := "Warning", reason := "AuctionFailed"
                message := job'.Status.Message }]
      let log1 := LogEntry.info "Processing MarketAuctionJob" [("job_name", job.Name)]
      match w.statusUpdate job' with
      | some err =>
        { result := {}, err := some err, obj := job', updates := [job'], events := events
          logs := [log1, .error err "Failed to update MarketAuctionJob status"] }
      | none =>
        let log2 := LogEntry.info "Updated MarketAuctionJob status"
          [("job_name", job'.Name), ("status", job'.Status.State)]
        let log3 := LogEntry.info
          "Job successfully scheduled. Now create the corresponding Kubernetes Job object." []
        { result := {}, err := none, obj := job', updates := [job'], events := events
          logs := if job'.Status.State = "Scheduled" then [log1, log2, log3] else [log1, log2] }

/-! ## The loop's result -/

/-- The state `s` holds the first entry of `order` among those of lowest price. -/
def SelectsFirstMin (order : List (String × Bid)) (s : LoopState) : Prop :=
  ∃ pre e post, order = pre ++ e :: post ∧
    (∀ x ∈ pre, e.2.Price < x.2.Price) ∧ (∀ x ∈ post, e.2.Price ≤ x.2.Price) ∧
    s.foundCandidate = true ∧ s.bestCluster = e.1 ∧ s.lowestPrice = e.2.Price

/-! ## Concrete resources -/

/-- The resource of the repository's test: two bids, `cluster-b` the cheaper. -/
def jobA : MarketAuctionJob :=
  { Name := "test-job", Namespace := "default"
    Spec :=
      { JobRequest :=
          { Name := "test-job", ResourceRequirements := { GPUs := 2, MemoryGiB := 16 } }
        Bids := [("cluster-a", { Price := 2, MaxTimeUntilStart := "5m" }),
                 ("cluster-b", { Price := 3 / 2, MaxTimeUntilStart := "10m" })]
        Constraints := { MaximumRuntime := "1h", IsPreemptible := false } } }

/-- A run that fetches `jobA` and visits `cluster-a` first. -/
def worldA : World :=
  { get := .ok jobA, isNotFound := IsNotFound, order := jobA.Spec.Bids, now := fun _ => 0, statusUpdate := fun _ => none }

/-- A resource that was scheduled on `cluster-z` before its bids were replaced. -/
def jobDone : MarketAuctionJob :=
  { Name := "done-job", Namespace := "default"
    Spec :=
      { JobRequest := { Name := "done-job", ResourceRequirements := { GPUs := 2 } }
        Bids := [("cluster-a", { Price := 1 })] }
    Status :=
      { ScheduledCluster := "cluster-z", AllocatedGPUs := 4, ClearingPrice := 5
        State := "Scheduled" } }

/-- A run that fetches `jobDone`. -/
def worldDone : World :=
  { get := .ok jobDone, isNotFound := IsNotFound, order := jobDone.Spec.Bids, now := fun _ => 0
    statusUpdate := fun _ => none }

/-- A pending resource without bids. -/
def jobEmpty : MarketAuctionJob :=
  { Name := "empty-job", Namespace := "default"
    Spec := { JobRequest := { Name := "empty-job", ResourceRequirements := { GPUs := 1 } } }
    Status := { State := "Pending" } }

/-- A run that fetches `jobEmpty`. -/
def worldEmpty : World :=
  { get := .ok jobEmpty, isNotFound := IsNotFound, order := [], now := fun _ => 0, statusUpdate := fun _ => none }

/-- A pending resource with two bids at the same price. -/
def jobTie : MarketAuctionJob :=
  { Name := "tie-job", Namespace := "default"
    Spec :=
      { JobRequest := { Name := "tie-job", ResourceRequirements := { GPUs := 1 } }
        Bids := [("cluster-a", { Price := 1 }), ("cluster-b", { Price := 1 })] }
    Status := { State := "Pending" } }

/-- A run that fetches `jobTie` and visits `cluster-a` first. -/
def worldTieAB : World :=
  { get := .ok jobTie, isNotFound := IsNotFound, order := [("cluster-a", { Price := 1 }), ("cluster-b", { Price := 1 })]
    now := fun _ => 0, statusUpdate := fun _ => none }

/-- A run that fetches `jobTie` and visits `cluster-b` first. -/
def worldTieBA : World :=
  { get := .ok jobTie, isNotFound := IsNotFound, order := [("cluster-b", { Price := 1 }), ("cluster-a", { Price := 1 })]
    now := fun _ => 0, statusUpdate := fun _ => none }

/-- A pending resource without bids whose status already names a cluster. -/
def jobStale : MarketAuctionJob :=
  { Name := "stale-job", Namespace := "default"
    Spec := { JobRequest := { Name := "stale-job", ResourceRequirements := { GPUs := 1 } } }
    Status := { ScheduledCluster := "cluster-x", State := "Pending" } }

/-- A run that fetches `jobStale`. -/
def worldStale : World :=
  { get := .ok jobStale, isNotFound := IsNotFound, order := [], now := fun _ => 0, statusUpdate := fun _ => none }

/-- A pending resource whose only bid is keyed by the empty string. -/
def jobAnon : MarketAuctionJob :=
  { Name := "anon-job", Namespace := "default"
    Spec :=
      { JobRequest := { Name := "anon-job", ResourceRequirements := { GPUs := 1 } }
        Bids := [("", { Price := 1 })] }
    Status := { State := "Pending" } }

/-- A run that fetches `jobAnon`. -/
def worldAnon : World :=
  { get := .ok jobAnon, isNotFound := IsNotFound, order := [("", { Price := 1 })], now := fun _ => 0
    statusUpdate := fun _ => none }

/-- A pending resource whose status already names a cluster, with two bids, the dearer
one keyed by the empty string. -/
def jobRebid : MarketAuctionJob :=
  { Name := "rebid-job", Namespace := "default"
    Spec :=
      { JobRequest := { Name := "rebid-job", ResourceRequirements := { GPUs := 1 } }
        Bids := [("", { Price := 2 }), ("cluster-a", { Price := 1 })] }
    Status := { ScheduledCluster := "cluster-x", State := "Pending" } }

/-- A run that fetches `jobRebid` and visits the bid keyed by the empty string first. -/
def worldRebid : World :=
  { get := .ok jobRebid, isNotFound := IsNotFound
    order := [("", { Price := 2 }), ("cluster-a", { Price := 1 })]
    now := fun _ => 0, statusUpdate := fun _ => none }

/-- A resource whose state is outside the enumeration, with one bid. -/
def jobBogus : MarketAuctionJob :=
  { Name := "bogus-job", Namespace := "default"
    Spec :=
      { JobRequest := { Name := "bogus-job", ResourceRequirements := { GPUs := 1 } }
        Bids := [("cluster-a", { Price := 1 })] }
    Status := { State := "Bogus" } }

/-- A run that fetches `jobBogus`. -/
def worldBogus : World :=
  { get := .ok jobBogus, isNotFound := IsNotFound, order := [("cluster-a", { Price := 1 })], now := fun _ => 0
    statusUpdate := fun _ => none }

/-- A run whose fetch fails because the API server cannot be reached. -/
def worldDown : World :=
  { get := .fail
      { reason := "ServiceUnavailable", code := 503, message := "the server is unavailable" }
    isNotFound := IsNotFound, order := [], now := fun _ => 0, statusUpdate := fun _ => none }

/-- A run whose fetch finds that the resource has been deleted. -/
def worldGone : World :=
  { get := .fail { reason := "NotFound", code := 404, message := "marketauctionjob not found" }
    isNotFound := IsNotFound, order := [], now := fun _ => 0, statusUpdate := fun _ => none }

/-- A run whose fetch fails with a bare HTTP 404 that carries no status reason. -/
def worldBare404 : World :=
  { get := .fail { reason := "", code := 404, message := "404 page not found" }
    isNotFound := IsNotFound, order := [], now := fun _ => 0, statusUpdate := fun _ => none }

/-- A run that fetches, a second time, what the run `worldA` has written. -/
def worldAgain : World :=
  { get := .ok (Reconcile worldA).obj, isNotFound := IsNotFound, order := jobA.Spec.Bids.reverse, now := fun _ => 7
    statusUpdate := fun _ => none }


/-! ## The loop selects the first bid of lowest price -/

theorem rangeBids_nil (now : Nat → Time) : rangeBids now [] = {} := rfl

theorem rangeBids_concat (now : Nat → Time) (l : List (String × Bid)) (x : String × Bid) :
    rangeBids now (l ++ [x]) = rangeStep now (rangeBids now l) x := by
  simp [rangeBids, List.foldl_append]

theorem rangeBids_selectsFirstMin (now : Nat → Time) (order : List (String × Bid))
    (hne : order ≠ []) : SelectsFirstMin order (rangeBids now order) := by
  induction order using List.reverseRecOn with
  | nil => exact absurd rfl hne
  | append_singleton l x ih =>
    rw [rangeBids_concat]
    rcases List.eq_nil_or_concat l with hl | ⟨l', y, hl⟩
    · subst hl
      refine ⟨[], x, [], by simp, by simp, by simp, ?_⟩
      simp [rangeBids_nil, rangeStep]
    · have hl' : l ≠ [] := by rw [hl]; simp
      obtain ⟨pre, e, post, hord, hpre, hpost, hf, hc, hp⟩ := ih hl'
      by_cases hlt : x.2.Price < (rangeBids now l).lowestPrice
      · refine ⟨l, x, [], rfl, ?_, by simp, ?_⟩
        · intro z hz
          rw [hp] at hlt
          rw [hord] at hz
          rcases List.mem_append.1 hz with h1 | h1
          · exact lt_trans hlt (hpre z h1)
          · rcases List.mem_cons.1 h1 with h2 | h2
            · rw [h2]; exact hlt
            · exact lt_of_lt_of_le hlt (hpost z h2)
        · simp [rangeStep, hlt]
      · refine ⟨pre, e, post ++ [x], by simp [hord], hpre, ?_, ?_⟩
        · intro z hz
          rcases List.mem_append.1 hz with h1 | h1
          · exact hpost z h1
          · rw [List.mem_singleton.1 h1, ← hp]; exact not_lt.1 hlt
        · have hstep : rangeStep now (rangeBids now l) x = rangeBids now l := by
            unfold rangeStep
            rw [if_neg]
            rintro (h | h)
            · rw [hf] at h; exact Bool.noConfusion h
            · exact hlt h
          rw [hstep]
          exact ⟨hf, hc, hp⟩

theorem rangeBids_found (now : Nat → Time) (order : List (String × Bid)) :
    (rangeBids now order).foundCandidate = true ↔ order ≠ [] := by
  constructor
  · intro h hnil
    rw [hnil, rangeBids_nil] at h
    exact Bool.noConfusion h
  · intro h
    obtain ⟨_, _, _, _, _, _, hf, _⟩ := rangeBids_selectsFirstMin now order h
    exact hf

/-! ## The two paths of Reconcile after a successful fetch -/

theorem Reconcile_terminal (w : World) (job : MarketAuctionJob) (hget : w.get = .ok job)
    (hterm : job.Status.State = "Scheduled" ∨ job.Status.State = "Failed") :
    Reconcile w =
      { result := {}, err := none, obj := job, updates := [], events := []
        logs := [.info "Job already processed"
          [("job_name", job.Name), ("state", job.Status.State)]] } := by
  unfold Reconcile
  rw [hget]
  simp only [if_pos hterm]

theorem Reconcile_pending (w : World) (job : MarketAuctionJob) (hget : w.get = .ok job)
    (hnt : ¬ (job.Status.State = "Scheduled" ∨ job.Status.State = "Failed")) :
    (Reconcile w).obj = applyAuction job (rangeBids w.now w.order) ∧
    (Reconcile w).updates = [applyAuction job (rangeBids w.now w.order)] ∧
    (Reconcile w).events =
      (if (rangeBids w.now w.order).foundCandidate = true then []
       else [{ object := applyAuction job (rangeBids w.now w.order), eventtype := "Warning"
               reason := "AuctionFailed"
               message := (applyAuction job (rangeBids w.now w.order)).Status.Message }]) ∧
    (Reconcile w).err = w.statusUpdate (applyAuction job (rangeBids w.now w.order)) ∧
    (Reconcile w).result = {} := by
  unfold Reconcile
  rw [hget]
  simp only [if_neg hnt]
  cases h : w.statusUpdate (applyAuction job (rangeBids w.now w.order)) <;> simp

theorem applyAuction_found (job : MarketAuctionJob) (s : LoopState)
    (hf : s.foundCandidate = true) :
    (applyAuction job s).Status.State = "Scheduled" ∧
    (applyAuction job s).Status.ScheduledCluster = s.bestCluster ∧
    (applyAuction job s).Status.ClearingPrice = s.lowestPrice ∧
    (applyAuction job s).Status.AllocatedGPUs = job.Spec.JobRequest.ResourceRequirements.GPUs ∧
    (applyAuction job s).Spec = job.Spec := by
  simp [applyAuction, hf]

theorem applyAuction_not_found (job : MarketAuctionJob) (s : LoopState)
    (hf : s.foundCandidate = false) :
    (applyAuction job s).Status.State = "Failed" ∧
    (applyAuction job s).Status.ScheduledCluster = job.Status.ScheduledCluster ∧
    (applyAuction job s).Status.Message =
      "Could not find a suitable cluster based on the provided bids." ∧
    (applyAuction job s).Spec = job.Spec := by
  simp [applyAuction, hf]

theorem applyAuction_state (job : MarketAuctionJob) (s : LoopState) :
    (applyAuction job s).Status.State = "Scheduled" ∨
    (applyAuction job s).Status.State = "Failed" := by
  cases hf : s.foundCandidate
  · exact Or.inr (applyAuction_not_found job s hf).1
  · exact Or.inl (applyAuction_found job s hf).1

/-- In a map with distinct keys, indexing by the key of an entry gives that entry. -/
theorem index_of_mem (m : List (String × Bid)) (hk : (keys m).Nodup) (e : String × Bid)
    (he : e ∈ m) : index m e.1 = e.2 := by
  induction m with
  | nil => cases he
  | cons x xs ih =>
    simp only [keys, List.map_cons, List.nodup_cons] at hk
    rcases List.mem_cons.1 he with h | h
    · subst h
      simp [index, List.lookup]
    · have hne : e.1 ≠ x.1 := by
        intro heq
        exact hk.1 (heq ▸ List.mem_map_of_mem Prod.fst h)
      have := ih hk.2 h
      simp only [index] at this ⊢
      rw [List.lookup_cons, show (e.1 == x.1) = false from by simpa using hne]
      exact this

/-- On a non-empty visiting order the loop ends on an entry of lowest price. -/
theorem rangeBids_lowest (now : Nat → Time) (order : List (String × Bid)) (hne : order ≠ []) :
    (rangeBids now order).foundCandidate = true ∧
    ∃ e ∈ order, (∀ x ∈ order, e.2.Price ≤ x.2.Price) ∧
      (rangeBids now order).bestCluster = e.1 ∧ (rangeBids now order).lowestPrice = e.2.Price := by
  obtain ⟨pre, e, post, hord, hpre, hpost, hf, hc, hp⟩ := rangeBids_selectsFirstMin now order hne
  refine ⟨hf, e, by rw [hord]; simp, fun x hx => ?_, hc, hp⟩
  rw [hord] at hx
  rcases List.mem_append.1 hx with h | h
  · exact le_of_lt (hpre x h)
  · rcases List.mem_cons.1 h with h | h
    · rw [h]
    · exact hpost x h

theorem Reconcile_fetch_failed (w : World) (err : Error) (hget : w.get = .fail err) :
    Reconcile w =
      { result := {}, err := if w.isNotFound err = true then none else some err, obj := {}
        updates := [], events := [], logs := [] } := by
  unfold Reconcile
  rw [hget]
  by_cases h : w.isNotFound err = true <;> simp [h]

/-! ## The claims -/

/-- C1. A resource fetched in state `Scheduled` or `Failed`, whatever its spec, bids and
other status fields: `Reconcile` returns success with a nil error, calls no status update,
emits no event, and leaves the object, hence every status field, as fetched. -/
theorem reconcile_terminal_noop (w : World) (job : MarketAuctionJob)
    (hget : w.get = .ok job)
    (hterm : job.Status.State = "Scheduled" ∨ job.Status.State = "Failed") :
    (Reconcile w).err = none ∧ (Reconcile w).result = {} ∧
    (Reconcile w).updates = [] ∧ (Reconcile w).events = [] ∧
    (Reconcile w).obj = job ∧ (Reconcile w).obj.Status = job.Status := by
  rw [Reconcile_terminal w job hget hterm]
  exact ⟨rfl, rfl, rfl, rfl, rfl, rfl⟩

/-- The no-op on the resource `jobDone`, fetched in state `Scheduled`. -/
theorem reconcile_terminal_noop_witness :
    worldDone.get = .ok jobDone ∧
    (jobDone.Status.State = "Scheduled" ∨ jobDone.Status.State = "Failed") ∧
    ((Reconcile worldDone).err = none ∧ (Reconcile worldDone).result = {} ∧
     (Reconcile worldDone).updates = [] ∧ (Reconcile worldDone).events = [] ∧
     (Reconcile worldDone).obj = jobDone ∧ (Reconcile worldDone).obj.Status = jobDone.Status) :=
  ⟨rfl, Or.inl rfl, reconcile_terminal_noop worldDone jobDone rfl (Or.inl rfl)⟩

/-- C2. A non-terminal resource whose bids have a unique lowest price, held by cluster `c`:
for every order in which the bids are visited, `Reconcile` sets `Status.ScheduledCluster`
to `c` and `Status.State` to `Scheduled`, and passes that object to the status update. -/
theorem reconcile_unique_minimum (w : World) (job : MarketAuctionJob)
    (hget : w.get = .ok job)
    (hnt : ¬ (job.Status.State = "Scheduled" ∨ job.Status.State = "Failed"))
    (hperm : w.order.Perm job.Spec.Bids)
    (c : String) (b : Bid) (hmem : (c, b) ∈ job.Spec.Bids)
    (huniq : ∀ e ∈ job.Spec.Bids, e.1 ≠ c → b.Price < e.2.Price) :
    (Reconcile w).obj.Status.ScheduledCluster = c ∧
    (Reconcile w).obj.Status.State = "Scheduled" ∧
    (Reconcile w).updates = [(Reconcile w).obj] := by
  obtain ⟨hobj, hupd, -, -, -⟩ := Reconcile_pending w job hget hnt
  have hmem' : (c, b) ∈ w.order := hperm.symm.subset hmem
  have hne : w.order ≠ [] := List.ne_nil_of_mem hmem'
  obtain ⟨pre, e, post, hord, hpre, hpost, hf, hc, -⟩ :=
    rangeBids_selectsFirstMin w.now w.order hne
  obtain ⟨hst, hcl, -, -, -⟩ := applyAuction_found job _ hf
  have he : e ∈ job.Spec.Bids := hperm.subset (by rw [hord]; simp)
  have hle : e.2.Price ≤ b.Price := by
    rw [hord] at hmem'
    rcases List.mem_append.1 hmem' with h | h
    · exact le_of_lt (hpre _ h)
    · rcases List.mem_cons.1 h with h | h
      · rw [← h]
      · exact hpost _ h
  have hec : e.1 = c := by
    by_contra hcon
    exact absurd (huniq e he hcon) (not_lt.2 hle)
  rw [hupd, hobj]
  exact ⟨by rw [hcl, hc, hec], hst, rfl⟩

/-- The bids of the repository test, `cluster-a` at 2 and `cluster-b` at 1.5, give `cluster-b`. -/
theorem reconcile_unique_minimum_witness :
    worldA.get = .ok jobA ∧
    ¬ (jobA.Status.State = "Scheduled" ∨ jobA.Status.State = "Failed") ∧
    worldA.order.Perm jobA.Spec.Bids ∧
    ("cluster-b", ({ Price := 3 / 2, MaxTimeUntilStart := "10m" } : Bid)) ∈ jobA.Spec.Bids ∧
    (∀ e ∈ jobA.Spec.Bids, e.1 ≠ "cluster-b" → (3 / 2 : ℚ) < e.2.Price) ∧
    ((Reconcile worldA).obj.Status.ScheduledCluster = "cluster-b" ∧
     (Reconcile worldA).obj.Status.State = "Scheduled" ∧
     (Reconcile worldA).updates = [(Reconcile worldA).obj]) :=
  ⟨rfl, by decide, List.Perm.refl _, by simp [jobA], by simp [jobA]; norm_num,
    reconcile_unique_minimum worldA jobA rfl (by decide) (List.Perm.refl _)
      "cluster-b" { Price := 3 / 2, MaxTimeUntilStart := "10m" } (by simp [jobA])
      (by simp [jobA]; norm_num)⟩

/-- C3. The scheduling invariant is established by every run that evaluates the bids and
preserved by every other run. Take any fetched resource, its bids visited in any order,
such that, if it is fetched already `Scheduled`, its status names a key of `Spec.Bids`,
holds that bid's price and holds the requested number of GPUs. When the run ends with
`Status.State = Scheduled`, `Status.ScheduledCluster` is a key of `Spec.Bids`,
`Status.ClearingPrice` is `Spec.Bids[Status.ScheduledCluster].Price`, and
`Status.AllocatedGPUs` is `Spec.JobRequest.ResourceRequirements.GPUs`. For a resource
fetched in a non-terminal state the condition on the fetched status is void: the run
itself makes the three facts true. -/
theorem reconcile_scheduled_invariant (w : World) (job : MarketAuctionJob)
    (hget : w.get = .ok job)
    (hkeys : (keys job.Spec.Bids).Nodup)
    (hperm : w.order.Perm job.Spec.Bids)
    (hprior : job.Status.State = "Scheduled" →
      job.Status.ScheduledCluster ∈ keys job.Spec.Bids ∧
      job.Status.ClearingPrice = (index job.Spec.Bids job.Status.ScheduledCluster).Price ∧
      job.Status.AllocatedGPUs = job.Spec.JobRequest.ResourceRequirements.GPUs)
    (hend : (Reconcile w).obj.Status.State = "Scheduled") :
    (Reconcile w).obj.Status.ScheduledCluster ∈ keys (Reconcile w).obj.Spec.Bids ∧
    (Reconcile w).obj.Status.ClearingPrice =
      (index (Reconcile w).obj.Spec.Bids (Reconcile w).obj.Status.ScheduledCluster).Price ∧
    (Reconcile w).obj.Status.AllocatedGPUs =
      (Reconcile w).obj.Spec.JobRequest.ResourceRequirements.GPUs ∧
    (Reconcile w).obj.Spec = job.Spec := by
  by_cases hterm : job.Status.State = "Scheduled" ∨ job.Status.State = "Failed"
  · rw [Reconcile_terminal w job hget hterm] at hend ⊢
    obtain ⟨h1, h2, h3⟩ := hprior hend
    exact ⟨h1, h2, h3, rfl⟩
  · obtain ⟨hobj, -, -, -, -⟩ := Reconcile_pending w job hget hterm
    rw [hobj] at hend ⊢
    have hf : (rangeBids w.now w.order).foundCandidate = true := by
      cases h : (rangeBids w.now w.order).foundCandidate
      · rw [(applyAuction_not_found job _ h).1] at hend
        exact absurd hend (by decide)
      · rfl
    have hne : w.order ≠ [] := (rangeBids_found w.now w.order).1 hf
    obtain ⟨pre, e, post, hord, -, -, -, hc, hp⟩ :=
      rangeBids_selectsFirstMin w.now w.order hne
    obtain ⟨-, hcl, hpr, hgpu, hspec⟩ := applyAuction_found job _ hf
    have he : e ∈ job.Spec.Bids := hperm.subset (by rw [hord]; simp)
    rw [hcl, hpr, hgpu, hspec, hc, hp, index_of_mem job.Spec.Bids hkeys e he]
    exact ⟨List.mem_map_of_mem Prod.fst he, rfl, rfl, rfl⟩

/-- The invariant on the run that schedules the resource of the repository test, and on
the run that fetches the scheduled resource again. -/
theorem reconcile_scheduled_invariant_witness :
    (worldA.get = .ok jobA ∧ (keys jobA.Spec.Bids).Nodup ∧
      worldA.order.Perm jobA.Spec.Bids ∧ jobA.Status.State ≠ "Scheduled" ∧
      (Reconcile worldA).obj.Status.State = "Scheduled" ∧
      (Reconcile worldA).obj.Status.ScheduledCluster ∈ keys (Reconcile worldA).obj.Spec.Bids ∧
      (Reconcile worldA).obj.Status.ClearingPrice =
        (index (Reconcile worldA).obj.Spec.Bids
          (Reconcile worldA).obj.Status.ScheduledCluster).Price ∧
      (Reconcile worldA).obj.Status.AllocatedGPUs =
        (Reconcile worldA).obj.Spec.JobRequest.ResourceRequirements.GPUs ∧
      (Reconcile worldA).obj.Spec = jobA.Spec) ∧
    (worldAgain.get = .ok (Reconcile worldA).obj ∧
      worldAgain.order.Perm (Reconcile worldA).obj.Spec.Bids ∧
      (Reconcile worldAgain).obj.Status.State = "Scheduled" ∧
      (Reconcile worldAgain).obj.Status.ScheduledCluster ∈
        keys (Reconcile worldAgain).obj.Spec.Bids ∧
      (Reconcile worldAgain).obj.Status.ClearingPrice =
        (index (Reconcile worldAgain).obj.Spec.Bids
          (Reconcile worldAgain).obj.Status.ScheduledCluster).Price ∧
      (Reconcile worldAgain).obj.Status.AllocatedGPUs =
        (Reconcile worldAgain).obj.Spec.JobRequest.ResourceRequirements.GPUs) :=
  have hlt : (3 / 2 : ℚ) < 2 := by norm_num
  have hendA : (Reconcile worldA).obj.Status.State = "Scheduled" := by
    simp [Reconcile, worldA, jobA, rangeBids, rangeStep, applyAuction, hlt]
  have hA := reconcile_scheduled_invariant worldA jobA rfl (by decide) (List.Perm.refl _)
    (fun h => absurd h (by decide)) hendA
  have hspec : (Reconcile worldA).obj.Spec.Bids = jobA.Spec.Bids := by rw [hA.2.2.2]
  have hpermB : worldAgain.order.Perm (Reconcile worldA).obj.Spec.Bids := by
    rw [hspec]
    exact List.reverse_perm _
  have hendB : (Reconcile worldAgain).obj.Status.State = "Scheduled" := by
    rw [Reconcile_terminal worldAgain (Reconcile worldA).obj rfl (Or.inl hendA)]
    exact hendA
  have hB := reconcile_scheduled_invariant worldAgain (Reconcile worldA).obj rfl
    (by rw [hspec]; decide) hpermB (fun _ => ⟨hA.1, hA.2.1, hA.2.2.1⟩) hendB
  ⟨⟨rfl, by decide, List.Perm.refl _, by decide, hendA, hA.1, hA.2.1, hA.2.2.1, hA.2.2.2⟩,
    ⟨rfl, hpermB, hendB, hB.1, hB.2.1, hB.2.2.1⟩⟩

/-- C4. A non-terminal resource whose bid mapping is empty: `Reconcile` passes to the
status update, once, a status with `State = Failed` and a non-empty `Message`, and emits
exactly one event, of severity `Warning`, carrying that same `Message`. -/
theorem reconcile_no_bids (w : World) (job : MarketAuctionJob)
    (hget : w.get = .ok job)
    (hnt : ¬ (job.Status.State = "Scheduled" ∨ job.Status.State = "Failed"))
    (hperm : w.order.Perm job.Spec.Bids)
    (hempty : job.Spec.Bids = []) :
    ∃ u ev, (Reconcile w).updates = [u] ∧ u.Status.State = "Failed" ∧
      u.Status.Message ≠ "" ∧ (Reconcile w).events = [ev] ∧
      ev.eventtype = "Warning" ∧ ev.message = u.Status.Message := by
  obtain ⟨-, hupd, hev, -, -⟩ := Reconcile_pending w job hget hnt
  have hnil : w.order = [] := by
    rw [hempty] at hperm
    exact hperm.eq_nil
  have hf : (rangeBids w.now w.order).foundCandidate = false := by
    rw [hnil, rangeBids_nil]
  obtain ⟨hst, -, hmsg, -⟩ := applyAuction_not_found job _ hf
  refine ⟨applyAuction job (rangeBids w.now w.order),
    { object := applyAuction job (rangeBids w.now w.order), eventtype := "Warning"
      reason := "AuctionFailed"
      message := (applyAuction job (rangeBids w.now w.order)).Status.Message },
    hupd, hst, ?_, ?_, rfl, rfl⟩
  · rw [hmsg]
    decide
  · rw [hev, if_neg]
    rw [hf]
    exact Bool.noConfusion

/-- The failure on the pending resource `jobEmpty`, which has no bids. -/
theorem reconcile_no_bids_witness :
    worldEmpty.get = .ok jobEmpty ∧
    ¬ (jobEmpty.Status.State = "Scheduled" ∨ jobEmpty.Status.State = "Failed") ∧
    worldEmpty.order.Perm jobEmpty.Spec.Bids ∧ jobEmpty.Spec.Bids = [] ∧
    (∃ u ev, (Reconcile worldEmpty).updates = [u] ∧ u.Status.State = "Failed" ∧
      u.Status.Message ≠ "" ∧ (Reconcile worldEmpty).events = [ev] ∧
      ev.eventtype = "Warning" ∧ ev.message = u.Status.Message) :=
  ⟨rfl, by decide, List.Perm.refl _, rfl,
    reconcile_no_bids worldEmpty jobEmpty rfl (by decide) (List.Perm.refl _) rfl⟩

/-- C5 fails as stated: `jobTie` holds two bids at the same lowest price, and two runs on
it that visit the same bid mapping in different orders select different clusters. -/
theorem reconcile_tie_counterexample :
    worldTieAB.get = .ok jobTie ∧ worldTieBA.get = .ok jobTie ∧
    ¬ (jobTie.Status.State = "Scheduled" ∨ jobTie.Status.State = "Failed") ∧
    (keys jobTie.Spec.Bids).Nodup ∧
    worldTieAB.order.Perm jobTie.Spec.Bids ∧ worldTieBA.order.Perm jobTie.Spec.Bids ∧
    (Reconcile worldTieAB).obj.Status.ScheduledCluster = "cluster-a" ∧
    (Reconcile worldTieBA).obj.Status.ScheduledCluster = "cluster-b" ∧
    (Reconcile worldTieAB).obj.Status.ScheduledCluster ≠
      (Reconcile worldTieBA).obj.Status.ScheduledCluster := by
  decide

/-- C5, amended. A non-terminal resource with at least one bid: the cluster `Reconcile`
selects as `Status.ScheduledCluster` is that of the first bid, in the order in which the
mapping is visited, among the bids of lowest price: every bid visited before it is
strictly dearer and no bid visited after it is cheaper. Ties are broken by the visiting
order. -/
theorem reconcile_selects_first_lowest (w : World) (job : MarketAuctionJob)
    (hget : w.get = .ok job)
    (hnt : ¬ (job.Status.State = "Scheduled" ∨ job.Status.State = "Failed"))
    (hperm : w.order.Perm job.Spec.Bids)
    (hne : job.Spec.Bids ≠ []) :
    ∃ pre e post, w.order = pre ++ e :: post ∧
      (∀ x ∈ pre, e.2.Price < x.2.Price) ∧ (∀ x ∈ post, e.2.Price ≤ x.2.Price) ∧
      (Reconcile w).obj.Status.ScheduledCluster = e.1 ∧
      (Reconcile w).updates = [(Reconcile w).obj] := by
  obtain ⟨hobj, hupd, -, -, -⟩ := Reconcile_pending w job hget hnt
  have hne' : w.order ≠ [] := by
    intro h
    rw [h] at hperm
    exact hne hperm.symm.eq_nil
  obtain ⟨pre, e, post, hord, hpre, hpost, hf, hc, -⟩ :=
    rangeBids_selectsFirstMin w.now w.order hne'
  refine ⟨pre, e, post, hord, hpre, hpost, ?_, ?_⟩
  · rw [hobj, (applyAuction_found job _ hf).2.1, hc]
  · rw [hupd, hobj]

/-- The first bid of lowest price on the tied resource, `cluster-b` visited first. -/
theorem reconcile_selects_first_lowest_witness :
    worldTieBA.get = .ok jobTie ∧
    ¬ (jobTie.Status.State = "Scheduled" ∨ jobTie.Status.State = "Failed") ∧
    worldTieBA.order.Perm jobTie.Spec.Bids ∧ jobTie.Spec.Bids ≠ [] ∧
    (∃ pre e post, worldTieBA.order = pre ++ e :: post ∧
      (∀ x ∈ pre, e.2.Price < x.2.Price) ∧ (∀ x ∈ post, e.2.Price ≤ x.2.Price) ∧
      (Reconcile worldTieBA).obj.Status.ScheduledCluster = e.1 ∧
      (Reconcile worldTieBA).updates = [(Reconcile worldTieBA).obj]) :=
  ⟨rfl, by decide, by decide, by decide,
    reconcile_selects_first_lowest worldTieBA jobTie rfl (by decide) (by decide) (by decide)⟩

/-- C6 fails as stated, in both directions. On `jobStale`, pending with no bids and a
status that already names a cluster, the written status has `State = Failed` and a
non-empty `ScheduledCluster`. On `jobAnon`, whose only bid is keyed by the empty string,
the written status has `State = Scheduled` and an empty `ScheduledCluster`. -/
theorem reconcile_cluster_iff_scheduled_counterexample :
    (worldStale.get = .ok jobStale ∧ worldStale.order.Perm jobStale.Spec.Bids ∧
      jobStale.Spec.Bids = [] ∧
      ∃ u, (Reconcile worldStale).updates = [u] ∧ u.Status.State = "Failed" ∧
        u.Status.ScheduledCluster = "cluster-x" ∧
        ¬ (u.Status.ScheduledCluster ≠ "" ↔ u.Status.State = "Scheduled")) ∧
    (worldAnon.get = .ok jobAnon ∧ worldAnon.order.Perm jobAnon.Spec.Bids ∧
      (keys jobAnon.Spec.Bids).Nodup ∧
      ∃ u, (Reconcile worldAnon).updates = [u] ∧ u.Status.State = "Scheduled" ∧
        u.Status.ScheduledCluster = "" ∧
        ¬ (u.Status.ScheduledCluster ≠ "" ↔ u.Status.State = "Scheduled")) := by
  refine ⟨⟨rfl, by decide, rfl, (Reconcile worldStale).obj, by decide, by decide, by decide,
    by decide⟩, ⟨rfl, by decide, by decide, (Reconcile worldAnon).obj, ?_, by decide,
    by decide, by decide⟩⟩
  rw [(Reconcile_pending worldAnon jobAnon rfl (by decide)).2.1,
    (Reconcile_pending worldAnon jobAnon rfl (by decide)).1]

/-- C6, amended. A fetched resource in which no bid of lowest price is keyed by the empty
string and which, if it has no bids, is fetched with an empty `Status.ScheduledCluster`:
every status `Reconcile` writes has `ScheduledCluster` non-empty if and only if its `State`
is `Scheduled`; and when the bids are empty the written status has no `ScheduledCluster`
set. Whatever `ScheduledCluster` a resource with bids is fetched with is overwritten. -/
theorem reconcile_cluster_iff_scheduled (w : World) (job : MarketAuctionJob)
    (hget : w.get = .ok job)
    (hperm : w.order.Perm job.Spec.Bids)
    (hprior : job.Spec.Bids = [] → job.Status.ScheduledCluster = "")
    (hkey : ∀ e ∈ job.Spec.Bids, (∀ x ∈ job.Spec.Bids, e.2.Price ≤ x.2.Price) → e.1 ≠ "") :
    ∀ u ∈ (Reconcile w).updates,
      (u.Status.ScheduledCluster ≠ "" ↔ u.Status.State = "Scheduled") ∧
      (job.Spec.Bids = [] → u.Status.ScheduledCluster = "") := by
  intro u hu
  by_cases hterm : job.Status.State = "Scheduled" ∨ job.Status.State = "Failed"
  · rw [Reconcile_terminal w job hget hterm] at hu
    cases hu
  · obtain ⟨-, hupd, -, -, -⟩ := Reconcile_pending w job hget hterm
    rw [hupd, List.mem_singleton] at hu
    subst hu
    cases hf : (rangeBids w.now w.order).foundCandidate
    · obtain ⟨hst, hcl, -, -⟩ := applyAuction_not_found job _ hf
      have hnil : job.Spec.Bids = [] := by
        by_contra hne
        have hne2 : w.order ≠ [] := fun h => hne (by rw [h] at hperm; exact hperm.symm.eq_nil)
        rw [(rangeBids_found w.now w.order).2 hne2] at hf
        exact Bool.noConfusion hf
      rw [hst, hcl, hprior hnil]
      exact ⟨by decide, fun _ => rfl⟩
    · have hne : w.order ≠ [] := (rangeBids_found w.now w.order).1 hf
      obtain ⟨-, e, he, hlow, hc, -⟩ := rangeBids_lowest w.now w.order hne
      obtain ⟨hst, hcl, -, -, -⟩ := applyAuction_found job _ hf
      have he2 : e ∈ job.Spec.Bids := hperm.subset he
      have hk : e.1 ≠ "" := hkey e he2 (fun x hx => hlow x (hperm.symm.subset hx))
      rw [hst, hcl, hc]
      refine ⟨⟨fun _ => rfl, fun _ => hk⟩, fun hnil => ?_⟩
      rw [hnil] at he2
      cases he2

/-- The equivalence on both branches: `jobRebid`, fetched with a cluster already named and
scheduled anew on `cluster-a`, and `jobEmpty`, fetched with no cluster and no bids. -/
theorem reconcile_cluster_iff_scheduled_witness :
    (worldRebid.get = .ok jobRebid ∧ worldRebid.order.Perm jobRebid.Spec.Bids ∧
      jobRebid.Spec.Bids ≠ [] ∧ jobRebid.Status.ScheduledCluster = "cluster-x" ∧
      (∀ e ∈ jobRebid.Spec.Bids,
        (∀ x ∈ jobRebid.Spec.Bids, e.2.Price ≤ x.2.Price) → e.1 ≠ "") ∧
      (Reconcile worldRebid).updates = [(Reconcile worldRebid).obj] ∧
      (Reconcile worldRebid).obj.Status.State = "Scheduled" ∧
      (Reconcile worldRebid).obj.Status.ScheduledCluster = "cluster-a" ∧
      ((Reconcile worldRebid).obj.Status.ScheduledCluster ≠ "" ↔
        (Reconcile worldRebid).obj.Status.State = "Scheduled")) ∧
    (worldEmpty.get = .ok jobEmpty ∧ worldEmpty.order.Perm jobEmpty.Spec.Bids ∧
      jobEmpty.Spec.Bids = [] ∧ jobEmpty.Status.ScheduledCluster = "" ∧
      (Reconcile worldEmpty).updates = [(Reconcile worldEmpty).obj] ∧
      (Reconcile worldEmpty).obj.Status.State = "Failed" ∧
      ((Reconcile worldEmpty).obj.Status.ScheduledCluster ≠ "" ↔
        (Reconcile worldEmpty).obj.Status.State = "Scheduled") ∧
      (Reconcile worldEmpty).obj.Status.ScheduledCluster = "") :=
  have hkeyR : ∀ e ∈ jobRebid.Spec.Bids,
      (∀ x ∈ jobRebid.Spec.Bids, e.2.Price ≤ x.2.Price) → e.1 ≠ "" := by decide
  have hupdR : (Reconcile worldRebid).updates = [(Reconcile worldRebid).obj] := by
    rw [(Reconcile_pending worldRebid jobRebid rfl (by decide)).2.1,
      (Reconcile_pending worldRebid jobRebid rfl (by decide)).1]
  have hupdE : (Reconcile worldEmpty).updates = [(Reconcile worldEmpty).obj] := by
    rw [(Reconcile_pending worldEmpty jobEmpty rfl (by decide)).2.1,
      (Reconcile_pending worldEmpty jobEmpty rfl (by decide)).1]
  have hR := reconcile_cluster_iff_scheduled worldRebid jobRebid rfl (by decide)
    (fun h => absurd h (by decide)) hkeyR (Reconcile worldRebid).obj
    (by rw [hupdR]; exact List.mem_singleton.2 rfl)
  have hE := reconcile_cluster_iff_scheduled worldEmpty jobEmpty rfl (List.Perm.refl _)
    (fun _ => rfl) (by decide) (Reconcile worldEmpty).obj
    (by rw [hupdE]; exact List.mem_singleton.2 rfl)
  ⟨⟨rfl, by decide, by decide, rfl, hkeyR, hupdR, by decide, by decide, hR.1⟩,
    ⟨rfl, List.Perm.refl _, rfl, rfl, hupdE, by decide, hE.1, hE.2 rfl⟩⟩

/-- C7 fails as stated: `jobBogus` is fetched in state `Bogus`, outside the enumeration,
and `Reconcile` runs the auction on it, calls the status update and changes the state from
`Bogus` to `Scheduled`. -/
theorem reconcile_unrecognized_state_counterexample :
    worldBogus.get = .ok jobBogus ∧ jobBogus.Status.State = "Bogus" ∧
    jobBogus.Status.State ∉ ["Pending", "Scheduled", "Failed", ""] ∧
    worldBogus.order.Perm jobBogus.Spec.Bids ∧ (keys jobBogus.Spec.Bids).Nodup ∧
    (Reconcile worldBogus).updates ≠ [] ∧
    (Reconcile worldBogus).obj.Status.State = "Scheduled" ∧
    (Reconcile worldBogus).obj.Status.ScheduledCluster = "cluster-a" ∧
    (Reconcile worldBogus).obj.Status ≠ jobBogus.Status := by
  decide

/-- C7, amended. `Reconcile` takes every fetched `Status.State` other than `Scheduled` and
`Failed` as non-terminal, strings outside the enumeration included: it runs the auction
over the bids and calls the status update once with the auction's result. With no bids
that result is state `Failed` and one event; with bids it is state `Scheduled`, on the
cluster of a bid of lowest price, at that bid's price and with the requested GPUs. The
only state changes `Reconcile` ever makes are from a state other than `Scheduled` and
`Failed` to `Scheduled` or to `Failed`. -/
theorem reconcile_state_transitions (w : World) (job : MarketAuctionJob)
    (hget : w.get = .ok job)
    (hperm : w.order.Perm job.Spec.Bids) :
    (¬ (job.Status.State = "Scheduled" ∨ job.Status.State = "Failed") →
      (Reconcile w).updates = [(Reconcile w).obj] ∧
      (job.Spec.Bids = [] →
        (Reconcile w).obj.Status.State = "Failed" ∧ (Reconcile w).events.length = 1) ∧
      (job.Spec.Bids ≠ [] →
        (Reconcile w).obj.Status.State = "Scheduled" ∧ (Reconcile w).events = [] ∧
        (Reconcile w).obj.Status.AllocatedGPUs =
          job.Spec.JobRequest.ResourceRequirements.GPUs ∧
        ∃ e ∈ job.Spec.Bids, (∀ x ∈ job.Spec.Bids, e.2.Price ≤ x.2.Price) ∧
          (Reconcile w).obj.Status.ScheduledCluster = e.1 ∧
          (Reconcile w).obj.Status.ClearingPrice = e.2.Price)) ∧
    ((Reconcile w).obj.Status.State ≠ job.Status.State →
      ¬ (job.Status.State = "Scheduled" ∨ job.Status.State = "Failed") ∧
      ((Reconcile w).obj.Status.State = "Scheduled" ∨
        (Reconcile w).obj.Status.State = "Failed")) := by
  constructor
  · intro hnt
    obtain ⟨hobj, hupd, hev, -, -⟩ := Reconcile_pending w job hget hnt
    rw [hupd, hev, hobj]
    refine ⟨rfl, fun hnil => ?_, fun hne => ?_⟩
    · have hord : w.order = [] := by
        rw [hnil] at hperm
        exact hperm.eq_nil
      have hf : (rangeBids w.now w.order).foundCandidate = false := by
        rw [hord, rangeBids_nil]
      refine ⟨(applyAuction_not_found job _ hf).1, ?_⟩
      rw [if_neg (by rw [hf]; exact Bool.noConfusion)]
      rfl
    · have hne2 : w.order ≠ [] := fun h => hne (by rw [h] at hperm; exact hperm.symm.eq_nil)
      obtain ⟨hf, e, he, hlow, hc, hp⟩ := rangeBids_lowest w.now w.order hne2
      obtain ⟨hst, hcl, hpr, hgpu, -⟩ := applyAuction_found job _ hf
      refine ⟨hst, by rw [if_pos hf], hgpu, e, hperm.subset he,
        fun x hx => hlow x (hperm.symm.subset hx), ?_, ?_⟩
      · rw [hcl, hc]
      · rw [hpr, hp]
  · intro hchg
    by_cases hterm : job.Status.State = "Scheduled" ∨ job.Status.State = "Failed"
    · rw [Reconcile_terminal w job hget hterm] at hchg
      exact absurd rfl hchg
    · obtain ⟨hobj, -, -, -, -⟩ := Reconcile_pending w job hget hterm
      rw [hobj]
      exact ⟨hterm, applyAuction_state job _⟩

/-- The auction on the resource `jobBogus`, fetched in state `Bogus` with one bid. -/
theorem reconcile_state_transitions_witness :
    worldBogus.get = .ok jobBogus ∧ worldBogus.order.Perm jobBogus.Spec.Bids ∧
    ¬ (jobBogus.Status.State = "Scheduled" ∨ jobBogus.Status.State = "Failed") ∧
    jobBogus.Spec.Bids ≠ [] ∧
    (Reconcile worldBogus).obj.Status.State ≠ jobBogus.Status.State ∧
    (Reconcile worldBogus).updates = [(Reconcile worldBogus).obj] ∧
    ((Reconcile worldBogus).obj.Status.State = "Scheduled" ∧
      (Reconcile worldBogus).events = [] ∧
      (Reconcile worldBogus).obj.Status.AllocatedGPUs =
        jobBogus.Spec.JobRequest.ResourceRequirements.GPUs ∧
      ∃ e ∈ jobBogus.Spec.Bids, (∀ x ∈ jobBogus.Spec.Bids, e.2.Price ≤ x.2.Price) ∧
        (Reconcile worldBogus).obj.Status.ScheduledCluster = e.1 ∧
        (Reconcile worldBogus).obj.Status.ClearingPrice = e.2.Price) ∧
    (¬ (jobBogus.Status.State = "Scheduled" ∨ jobBogus.Status.State = "Failed") ∧
      ((Reconcile worldBogus).obj.Status.State = "Scheduled" ∨
        (Reconcile worldBogus).obj.Status.State = "Failed")) :=
  have h := reconcile_state_transitions worldBogus jobBogus rfl (List.Perm.refl _)
  ⟨rfl, List.Perm.refl _, by decide, by decide, by decide, (h.1 (by decide)).1,
    (h.1 (by decide)).2.2 (by decide), h.2 (by decide)⟩

/-- C8. When the fetch fails, `Reconcile` calls no status update and emits no event, and it
returns an error if and only if the fetch error is not NotFound, as `errors.IsNotFound`
judges it: a NotFound error yields a nil error and an empty result, any other fetch error
is returned unchanged. This holds whatever the library check answers on each error. -/
theorem reconcile_fetch_error (w : World) (err : Error) (hget : w.get = .fail err) :
    (Reconcile w).updates = [] ∧ (Reconcile w).events = [] ∧
    ((Reconcile w).err ≠ none ↔ w.isNotFound err = false) ∧
    (w.isNotFound err = true → (Reconcile w).err = none ∧ (Reconcile w).result = {}) ∧
    (w.isNotFound err = false → (Reconcile w).err = some err) := by
  rw [Reconcile_fetch_failed w err hget]
  cases h : w.isNotFound err <;> simp

/-- The fetch that fails with `ServiceUnavailable` hands the error back to the caller; the
fetches that fail with `NotFound`, or with a bare 404 of unknown reason, end in success. -/
theorem reconcile_fetch_error_witness :
    (worldDown.get = .fail
        { reason := "ServiceUnavailable", code := 503, message := "the server is unavailable" } ∧
      worldDown.isNotFound
        { reason := "ServiceUnavailable", code := 503, message := "the server is unavailable" }
        = false ∧
      (Reconcile worldDown).updates = [] ∧ (Reconcile worldDown).events = [] ∧
      (Reconcile worldDown).err ≠ none ∧
      (Reconcile worldDown).err = some
        { reason := "ServiceUnavailable", code := 503, message := "the server is unavailable" }) ∧
    (worldGone.get =
        .fail { reason := "NotFound", code := 404, message := "marketauctionjob not found" } ∧
      worldGone.isNotFound
        { reason := "NotFound", code := 404, message := "marketauctionjob not found" } = true ∧
      (Reconcile worldGone).updates = [] ∧ (Reconcile worldGone).events = [] ∧
      (Reconcile worldGone).err = none ∧ (Reconcile worldGone).result = {}) ∧
    (worldBare404.get = .fail { reason := "", code := 404, message := "404 page not found" } ∧
      worldBare404.isNotFound { reason := "", code := 404, message := "404 page not found" }
        = true ∧
      (Reconcile worldBare404).updates = [] ∧ (Reconcile worldBare404).events = [] ∧
      (Reconcile worldBare404).err = none ∧ (Reconcile worldBare404).result = {}) :=
  ⟨⟨rfl, by decide, (reconcile_fetch_error worldDown _ rfl).1,
      (reconcile_fetch_error worldDown _ rfl).2.1,
      (reconcile_fetch_error worldDown _ rfl).2.2.1.2 (by decide),
      (reconcile_fetch_error worldDown _ rfl).2.2.2.2 (by decide)⟩,
    ⟨rfl, by decide, (reconcile_fetch_error worldGone _ rfl).1,
      (reconcile_fetch_error worldGone _ rfl).2.1,
      (reconcile_fetch_error worldGone _ rfl).2.2.2.1 (by decide)⟩,
    ⟨rfl, by decide, (reconcile_fetch_error worldBare404 _ rfl).1,
      (reconcile_fetch_error worldBare404 _ rfl).2.1,
      (reconcile_fetch_error worldBare404 _ rfl).2.2.2.1 (by decide)⟩⟩

/-- C9. A non-terminal resource with a non-empty bid mapping, visited in any order:
`Reconcile` ends in state `Scheduled` and `Status.ClearingPrice` is the lowest price of the
mapping, the price of some bid and at most the price of every bid; hence any other run on
the same resource, whatever order it visits the bids in, ends with the same clearing
price. -/
theorem reconcile_clearing_price_lowest (w : World) (job : MarketAuctionJob)
    (hget : w.get = .ok job)
    (hnt : ¬ (job.Status.State = "Scheduled" ∨ job.Status.State = "Failed"))
    (hperm : w.order.Perm job.Spec.Bids)
    (hne : job.Spec.Bids ≠ []) :
    (Reconcile w).obj.Status.State = "Scheduled" ∧
    (∃ e ∈ job.Spec.Bids, (Reconcile w).obj.Status.ClearingPrice = e.2.Price) ∧
    (∀ e ∈ job.Spec.Bids, (Reconcile w).obj.Status.ClearingPrice ≤ e.2.Price) ∧
    (∀ w2 : World, w2.get = .ok job → w2.order.Perm job.Spec.Bids →
      (Reconcile w2).obj.Status.ClearingPrice = (Reconcile w).obj.Status.ClearingPrice) := by
  have key : ∀ v : World, v.get = .ok job → v.order.Perm job.Spec.Bids →
      (Reconcile v).obj.Status.State = "Scheduled" ∧
      (∃ e ∈ job.Spec.Bids, (Reconcile v).obj.Status.ClearingPrice = e.2.Price) ∧
      (∀ e ∈ job.Spec.Bids, (Reconcile v).obj.Status.ClearingPrice ≤ e.2.Price) := by
    intro v hv hp
    obtain ⟨hobj, -, -, -, -⟩ := Reconcile_pending v job hv hnt
    have hne2 : v.order ≠ [] := by
      intro h
      rw [h] at hp
      exact hne hp.symm.eq_nil
    obtain ⟨pre, e, post, hord, hpre, hpost, hf, -, hpr⟩ :=
      rangeBids_selectsFirstMin v.now v.order hne2
    obtain ⟨hst, -, hcp, -, -⟩ := applyAuction_found job _ hf
    rw [hobj, hcp, hpr]
    refine ⟨hst, ⟨e, hp.subset (by rw [hord]; simp), rfl⟩, fun x hx => ?_⟩
    have hx2 : x ∈ v.order := hp.symm.subset hx
    rw [hord] at hx2
    rcases List.mem_append.1 hx2 with h | h
    · exact le_of_lt (hpre x h)
    · rcases List.mem_cons.1 h with h | h
      · rw [h]
      · exact hpost x h
  obtain ⟨hst, hex, hall⟩ := key w hget hperm
  refine ⟨hst, hex, hall, fun w2 hget2 hperm2 => ?_⟩
  obtain ⟨-, ⟨e2, he2, hp2⟩, hall2⟩ := key w2 hget2 hperm2
  obtain ⟨e1, he1, hp1⟩ := hex
  apply le_antisymm
  · rw [hp1]; exact hall2 e1 he1
  · rw [hp2]; exact hall e2 he2

/-- The lowest price on the tied resource, `cluster-a` visited first, and the same price
when `cluster-b` is visited first. -/
theorem reconcile_clearing_price_lowest_witness :
    worldTieAB.get = .ok jobTie ∧
    ¬ (jobTie.Status.State = "Scheduled" ∨ jobTie.Status.State = "Failed") ∧
    worldTieAB.order.Perm jobTie.Spec.Bids ∧ jobTie.Spec.Bids ≠ [] ∧
    worldTieBA.get = .ok jobTie ∧ worldTieBA.order.Perm jobTie.Spec.Bids ∧
    (Reconcile worldTieAB).obj.Status.State = "Scheduled" ∧
    (∃ e ∈ jobTie.Spec.Bids, (Reconcile worldTieAB).obj.Status.ClearingPrice = e.2.Price) ∧
    (∀ e ∈ jobTie.Spec.Bids, (Reconcile worldTieAB).obj.Status.ClearingPrice ≤ e.2.Price) ∧
    (Reconcile worldTieBA).obj.Status.ClearingPrice =
      (Reconcile worldTieAB).obj.Status.ClearingPrice :=
  have h := reconcile_clearing_price_lowest worldTieAB jobTie rfl (by decide) (by decide)
    (by decide)
  ⟨rfl, by decide, by decide, by decide, rfl, by decide, h.1, h.2.1, h.2.2.1,
    h.2.2.2 worldTieBA rfl (by decide)⟩

/-- C10. Reconciling twice is reconciling once. Whenever `Reconcile` calls the status
update, it does so once and the state it writes is `Scheduled` or `Failed`; so a second
`Reconcile`, on a resource fetched with the status the first one wrote, calls no status
update, emits no event, returns success and leaves the object as fetched. -/
theorem reconcile_twice (w : World) (u : MarketAuctionJob)
    (hu : u ∈ (Reconcile w).updates) :
    (Reconcile w).updates = [u] ∧
    (u.Status.State = "Scheduled" ∨ u.Status.State = "Failed") ∧
    (∀ (w2 : World) (job2 : MarketAuctionJob), w2.get = .ok job2 →
      job2.Status = u.Status →
      (Reconcile w2).updates = [] ∧ (Reconcile w2).events = [] ∧
      (Reconcile w2).err = none ∧ (Reconcile w2).result = {} ∧
      (Reconcile w2).obj = job2) := by
  have hfirst : (Reconcile w).updates = [u] ∧
      (u.Status.State = "Scheduled" ∨ u.Status.State = "Failed") := by
    cases hget : w.get with
    | fail err =>
      rw [Reconcile_fetch_failed w err hget] at hu
      cases hu
    | ok job =>
      by_cases hterm : job.Status.State = "Scheduled" ∨ job.Status.State = "Failed"
      · rw [Reconcile_terminal w job hget hterm] at hu
        cases hu
      · obtain ⟨-, hupd, -, -, -⟩ := Reconcile_pending w job hget hterm
        rw [hupd, List.mem_singleton] at hu
        rw [hupd, hu]
        exact ⟨rfl, applyAuction_state job _⟩
  refine ⟨hfirst.1, hfirst.2, fun w2 job2 hget2 hst => ?_⟩
  have hterm2 : job2.Status.State = "Scheduled" ∨ job2.Status.State = "Failed" := by
    rw [hst]
    exact hfirst.2
  rw [Reconcile_terminal w2 job2 hget2 hterm2]
  exact ⟨rfl, rfl, rfl, rfl, rfl⟩

/-- The resource of the repository test, reconciled and fetched again. -/
theorem reconcile_twice_witness :
    (Reconcile worldA).obj ∈ (Reconcile worldA).updates ∧
    worldAgain.get = .ok (Reconcile worldA).obj ∧
    (Reconcile worldA).updates = [(Reconcile worldA).obj] ∧
    ((Reconcile worldA).obj.Status.State = "Scheduled" ∨
      (Reconcile worldA).obj.Status.State = "Failed") ∧
    ((Reconcile worldAgain).updates = [] ∧ (Reconcile worldAgain).events = [] ∧
      (Reconcile worldAgain).err = none ∧ (Reconcile worldAgain).result = {} ∧
      (Reconcile worldAgain).obj = (Reconcile worldA).obj) :=
  have hu : (Reconcile worldA).obj ∈ (Reconcile worldA).updates := by
    rw [(Reconcile_pending worldA jobA rfl (by decide)).2.1,
      (Reconcile_pending worldA jobA rfl (by decide)).1]
    exact List.mem_singleton.2 rfl
  have h := reconcile_twice worldA (Reconcile worldA).obj hu
  ⟨hu, rfl, h.1, h.2.1, h.2.2 worldAgain (Reconcile worldA).obj rfl rfl⟩

end BidSpot
